import Mathlib

/-!
Verification of the frappe functional-reactive dataflow core.

This file gives a shallow embedding of the library's data model and
operations (src/types.rs, src/lib.rs, src/stream.rs, src/signal.rs) and
proves the specified properties about them.

Modelling conventions:
* Rust closures with interior mutability are embedded as pure functions
  `S → MaybeOwned T → Bool × S` threading an explicit state `S`.
* A user closure that panics is modelled by returning `none`; a partial
  operation that can panic (`expect`) returns `Option`, `none` standing for
  the loud failure.
* Weak-handle upgrades (`Weak::upgrade`) are modelled by explicit liveness
  booleans or `Option` state: `none`/`false` means every strong handle to the
  target was dropped and the upgrade fails.
* `FnCell.call` carries a ghost `invoked` field recording whether (and with
  which dispatch value) the user closure was actually invoked; it is pure
  instrumentation and does not influence any computed result.
-/

namespace Frappe

/-- Dispatch value: either a borrowed reference or an owned instance of an
event payload (`maybe_owned::MaybeOwned`, re-exported by types.rs). -/
inductive MaybeOwned (T : Type) where
  | borrowed (v : T)
  | owned (v : T)
deriving DecidableEq

/-- The payload carried by a dispatch value. -/
def MaybeOwned.val {T : Type} : MaybeOwned T → T
  | .borrowed v => v
  | .owned v => v

/-- types.rs `FnCell`: a callback closure together with its liveness flag.
The closure is embedded as a state-threading function: given the shared
mutable environment `S` and a dispatch value it returns its liveness result
and the updated environment. -/
structure FnCell (S T : Type) where
  f : S → MaybeOwned T → Bool × S
  alive : Bool

/-- Result of `FnCell::call`: the returned liveness, the updated cell, the
updated shared state, and (ghost) the argument the user closure was invoked
with, `none` when the closure was skipped. -/
structure CallRes (S T : Type) where
  alive : Bool
  cell : FnCell S T
  state : S
  invoked : Option (MaybeOwned T)

/-- types.rs:27-32 `FnCell::call`:
`let is_alive = self.alive.get() && (self.f)(arg); self.alive.set(is_alive); is_alive`.
The `&&` short-circuits, so the user closure runs only when the cell is
still alive. -/
def FnCell.call {S T : Type} (c : FnCell S T) (s : S) (arg : MaybeOwned T) : CallRes S T :=
  if c.alive then
    let r := c.f s arg
    ⟨r.1, { c with alive := r.1 }, r.2, some arg⟩
  else
    ⟨false, { c with alive := false }, s, none⟩

/-- types.rs:50-53 `Callbacks`: the ordered subscriber registry. -/
structure Callbacks (S T : Type) where
  fs : List (FnCell S T)

/-- types.rs:62-66 `Callbacks::push`: appends a new subscriber, initially
alive. -/
def Callbacks.push {S T : Type} (cbs : Callbacks S T) (f : S → MaybeOwned T → Bool × S) :
    Callbacks S T :=
  ⟨cbs.fs ++ [⟨f, true⟩]⟩

/-- Vec::swap_remove(i): overwrites the element at `i` with the last element
and removes the last slot. -/
def swapRemove {α : Type} (l : List α) (i : Nat) : List α :=
  match l.getLast? with
  | none => l
  | some a => (l.set i a).dropLast

/-- types.rs:108-127 `Callbacks::cleanup` loop body, with explicit fuel for
the `while removed < n_dead && i < fs.len()` loop (the fuel given by
`cleanup` is large enough that it never runs out). -/
def cleanupLoop {S T : Type} (fuel : Nat) (fs : List (FnCell S T)) (i removed nDead : Nat) :
    List (FnCell S T) :=
  match fuel with
  | 0 => fs
  | fuel' + 1 =>
    if h : removed < nDead ∧ i < fs.length then
      if (fs.get ⟨i, h.2⟩).alive then
        cleanupLoop fuel' fs (i + 1) removed nDead
      else
        cleanupLoop fuel' (swapRemove fs i) i (removed + 1) nDead
    else fs

/-- types.rs:108-127 `Callbacks::cleanup`: removes up to `nDead` dead
callbacks by swap-removal.  (In the modelled scenarios the registry is not
re-entrantly borrowed, so `try_borrow_mut` succeeds.) -/
def cleanup {S T : Type} (fs : List (FnCell S T)) (nDead : Nat) : List (FnCell S T) :=
  cleanupLoop (fs.length + nDead) fs 0 0 nDead

/-- types.rs:70-86 `Callbacks::call` delivery loop: a borrowed dispatch value
to the first `n-1` subscribers, the owned value to the last.  Returns the
updated cells, the final shared state, the number of dead results, and the
ghost trace of user-closure invocations (positionally aligned with the
registry). -/
def callLoop {S T : Type} :
    List (FnCell S T) → S → T → List (FnCell S T) × S × Nat × List (Option (MaybeOwned T))
  | [], s, _ => ([], s, 0, [])
  | [c], s, v =>
    let r := c.call s (.owned v)
    ([r.cell], r.state, (if r.alive then 0 else 1), [r.invoked])
  | c :: c₂ :: rest, s, v =>
    let r := c.call s (.borrowed v)
    let q := callLoop (c₂ :: rest) r.state v
    (r.cell :: q.1, q.2.1, (if r.alive then 0 else 1) + q.2.2.1, r.invoked :: q.2.2.2)

/-- types.rs:70-86 `Callbacks::call`: delivers the value (ref to the first
`n-1` callbacks, owned to the last), then cleans up if any subscriber died. -/
def Callbacks.call {S T : Type} (cbs : Callbacks S T) (s : S) (v : T) :
    Callbacks S T × S × List (Option (MaybeOwned T)) :=
  let q := callLoop cbs.fs s v
  (⟨if 0 < q.2.2.1 then cleanup q.1 q.2.2.1 else q.1⟩, q.2.1, q.2.2.2)

/-- types.rs:88-95 `Callbacks::call_ref` delivery loop: a borrowed dispatch
value to every subscriber. -/
def callRefLoop {S T : Type} :
    List (FnCell S T) → S → T → List (FnCell S T) × S × Nat × List (Option (MaybeOwned T))
  | [], s, _ => ([], s, 0, [])
  | c :: rest, s, v =>
    let r := c.call s (.borrowed v)
    let q := callRefLoop rest r.state v
    (r.cell :: q.1, q.2.1, (if r.alive then 0 else 1) + q.2.2.1, r.invoked :: q.2.2.2)

/-- types.rs:88-95 `Callbacks::call_ref`. -/
def Callbacks.call_ref {S T : Type} (cbs : Callbacks S T) (s : S) (v : T) :
    Callbacks S T × S × List (Option (MaybeOwned T)) :=
  let q := callRefLoop cbs.fs s v
  (⟨if 0 < q.2.2.1 then cleanup q.1 q.2.2.1 else q.1⟩, q.2.1, q.2.2.2)

/-- types.rs:98-105 `Callbacks::call_dyn`: re-delivers a dispatch value
exactly as received. -/
def Callbacks.call_dyn {S T : Type} (cbs : Callbacks S T) (s : S) (arg : MaybeOwned T) :
    Callbacks S T × S × List (Option (MaybeOwned T)) :=
  match arg with
  | .borrowed v => cbs.call_ref s v
  | .owned v => cbs.call s v

/-- stream.rs:84-93 `Sink::feed` (also repeated `send`): delivers each value
of the sequence through `Callbacks::call`, threading the shared state. -/
def Callbacks.sendAll {S T : Type} (cbs : Callbacks S T) (s : S) (vs : List T) :
    Callbacks S T × S :=
  vs.foldl (fun p v => let r := p.1.call p.2 v; (r.1, r.2.1)) (cbs, s)

/-! ## Storage (types.rs:210-280) and the serial counters -/

/-- types.rs:212-217 `Storage`: one optional value slot, a local serial
stamp and the (shared) root serial counter; `SerialId` is a plain counter. -/
structure Storage (T : Type) where
  val : Option T
  serial : Nat
  root_ser : Nat

/-- types.rs:224-231 `Storage::new`: a fresh slot with both serials at
`SerialId::once()` = 1. -/
def Storage.new {T : Type} (v : T) : Storage T :=
  ⟨some v, 1, 1⟩

/-- types.rs:244-248 `Storage::get`: clones the value out of the slot;
`none` models the `expect("storage empty")` panic. -/
def Storage.get {T : Type} (s : Storage T) : Option T :=
  s.val

/-- types.rs:251-255 `Storage::set`: stores the value and increments the
root serial. -/
def Storage.set {T : Type} (s : Storage T) (v : T) : Storage T :=
  { s with val := some v, root_ser := s.root_ser + 1 }

/-- types.rs:258-262 `Storage::set_local`: stores the value and sets the
local serial to the current root serial. -/
def Storage.set_local {T : Type} (s : Storage T) (v : T) : Storage T :=
  { s with val := some v, serial := s.root_ser }

/-- types.rs:264-267 `Storage::take`: moves the value out, leaving the slot
empty; the first component is `none` when the slot was already empty (the
`expect("storage empty")` panic), and in either case the slot is left
empty. -/
def Storage.take {T : Type} (s : Storage T) : Option T × Storage T :=
  (s.val, { s with val := none })

/-- types.rs:276-279 `Storage::must_update`: the cached value is stale
exactly when the shared root counter is strictly ahead of the local
stamp. -/
def Storage.must_update {T : Type} (s : Storage T) : Bool :=
  decide (s.serial < s.root_ser)

/-- Another holder of the shared root serial (`Rc<Cell<SerialId>>`)
incrementing it, as observed by this storage. -/
def Storage.rootInc {T : Type} (s : Storage T) : Storage T :=
  { s with root_ser := s.root_ser + 1 }

/-- Modelled from the spec: `Storage::replace`, called by `Stream::fold`
(stream.rs:327-331) but not itself present under src/.  Per the spec a fold
event does "take current value out, compute new value via f, put back",
built here from the in-src `Storage::take` (types.rs:264-267) and
`Storage::set`.  `f` returning `none` models a panic inside the user
closure: the value was already taken out and is never put back, so the slot
stays empty and the panic propagates. -/
def Storage.replace {T : Type} (s : Storage T) (f : T → Option T) : Storage T :=
  match s.take with
  | (none, s') => s'
  | (some v, s') =>
    match f v with
    | none => s'
    | some v' => s'.set v'

/-- Modelled from the spec: `Storage::replace_clone`, called by
`Stream::fold_clone` (stream.rs:346-350) but not itself present under src/.
Per the spec it reads the current value via clone (the in-src
`Storage::get`, types.rs:244-248), applies `f` and writes the result back;
a panic in `f` (`none`) leaves the previous value intact. -/
def Storage.replace_clone {T : Type} (s : Storage T) (f : T → Option T) : Storage T :=
  match s.get with
  | none => s
  | some v =>
    match f v with
    | none => s
    | some v' => s.set v'

/-- stream.rs:321-333 `Stream::fold`, one event: the subscriber runs
`st.replace(|old| f(old, arg))`. -/
def foldStep {A T : Type} (f : A → T → Option A) (st : Storage A) (v : T) : Storage A :=
  st.replace (fun acc => f acc v)

/-- stream.rs:340-352 `Stream::fold_clone`, one event: the subscriber runs
`st.replace_clone(|old| f(old, arg))`. -/
def foldCloneStep {A T : Type} (f : A → T → Option A) (st : Storage A) (v : T) : Storage A :=
  st.replace_clone (fun acc => f acc v)

/-- signal.rs:75 sampling a Shared signal: `s.sample().get()`, i.e. reading
the backing storage; `none` models the loud `expect("storage empty")`
failure. -/
def sampleShared {A : Type} (st : Storage A) : Option A :=
  st.get

/-! ## The two-variant sum abstraction (types.rs:138-192) -/

/-- Rust's `Result<T, E>` (needed because the `Option` instance of
`SumType2` builds a `Result` via `ok_or`). -/
inductive RResult (T E : Type) where
  | ok (v : T)
  | err (v : E)
deriving DecidableEq

/-- `Option::ok_or`: `Some v => Ok v`, `None => Err e`. -/
def okOr {T E : Type} (o : Option T) (e : E) : RResult T E :=
  match o with
  | some v => .ok v
  | none => .err e

/-- `Result::ok`. -/
def RResult.okVal {T E : Type} : RResult T E → Option T
  | .ok v => some v
  | .err _ => none

/-- `Result::err`. -/
def RResult.errVal {T E : Type} : RResult T E → Option E
  | .ok _ => none
  | .err v => some v

namespace OptionSum2

/-- types.rs:172 `impl SumType2 for Option<T>`: `is_type1 = is_some`. -/
def is_type1 {T : Type} (o : Option T) : Bool := o.isSome

/-- types.rs:173: `is_type2 = is_none`. -/
def is_type2 {T : Type} (o : Option T) : Bool := o.isNone

/-- types.rs:175: `into_type1 = self`. -/
def into_type1 {T : Type} (o : Option T) : Option T := o

/-- types.rs:176: `into_type2 = self.ok_or(()).err()`. -/
def into_type2 {T : Type} (o : Option T) : Option Unit := (okOr o ()).errVal

end OptionSum2

namespace ResultSum2

/-- types.rs:187 `impl SumType2 for Result<T, E>`: `is_type1 = is_ok`. -/
def is_type1 {T E : Type} (r : RResult T E) : Bool :=
  match r with
  | .ok _ => true
  | .err _ => false

/-- types.rs:188: `is_type2 = is_err`. -/
def is_type2 {T E : Type} (r : RResult T E) : Bool :=
  match r with
  | .ok _ => false
  | .err _ => true

/-- types.rs:190: `into_type1 = self.ok()`. -/
def into_type1 {T E : Type} (r : RResult T E) : Option T := r.okVal

/-- types.rs:191: `into_type2 = self.err()`. -/
def into_type2 {T E : Type} (r : RResult T E) : Option E := r.errVal

end ResultSum2

/-! ## split (stream.rs:507-534) -/

/-- The operations of a `SumType2` implementation, over which `split` is
generic. -/
structure Sum2Impl (V A B : Type) where
  is_type1 : V → Bool
  is_type2 : V → Bool
  into_type1 : V → Option A
  into_type2 : V → Option B

/-- stream.rs:510-529: the single subscriber `split` installs on the parent
registry.  `alive1`/`alive2` are the results of upgrading the weak handles
to the two derived registries.  Returns the subscriber's liveness result and
the value delivered to each derived stream (`cb.call(result.into_typeN().unwrap())`). -/
def splitSub {V A B : Type} (i : Sum2Impl V A B) (alive1 alive2 : Bool) (v : V) :
    Bool × Option A × Option B :=
  if i.is_type1 v then
    if alive1 then (true, i.into_type1 v, none)
    else (alive2, none, none)
  else
    if alive2 then (true, none, i.into_type2 v)
    else (alive1, none, none)

/-! ## switch (stream.rs:537-561) -/

/-- A forwarding subscriber installed by `switch` on an inner stream:
the id of the inner stream it sits on, the generation tag (`my_id`)
captured at installation, and its `FnCell` liveness flag. -/
structure SwitchSub where
  sid : Nat
  tag : Nat
  alive : Bool
deriving DecidableEq

/-- The state of a switch node: the shared `AtomicUsize` generation counter
and the forwarding subscribers installed so far on the inner streams (in
installation order; the switch output registry is assumed alive). -/
structure SwitchState where
  counter : Nat
  subs : List SwitchSub
deriving DecidableEq

/-- An event at a switch node: the parent stream delivers a new inner
stream (`arrive`), or an inner stream fires a value (`fire`). -/
inductive SwitchEvent (T : Type) where
  | arrive (sid : Nat)
  | fire (sid : Nat) (v : T)
deriving DecidableEq

/-- stream.rs:551-556: delivering a fired value through the forwarding
subscribers of inner stream `sid`.  Per `FnCell::call` a dead cell is
skipped; an alive cell whose captured tag differs from the current counter
returns false (`if my_id != cur_id.load(..) { return false; }`); otherwise
it forwards the value to the output registry (`with_weak!(cbs_w, |cb| cb.call(arg))`,
the output being alive). -/
def fireSubs (counter sid : Nat) {T : Type} (v : T) :
    List SwitchSub → List SwitchSub × List T
  | [] => ([], [])
  | c :: rest =>
    let q := fireSubs counter sid v rest
    if c.sid = sid then
      if c.alive then
        if c.tag = counter then (c :: q.1, v :: q.2)
        else ({ c with alive := false } :: q.1, q.2)
      else (c :: q.1, q.2)
    else (c :: q.1, q.2)

/-- The pointwise effect of a `fire` on one forwarding subscriber. -/
def fireCell (counter sid : Nat) (c : SwitchSub) : SwitchSub :=
  if c.sid = sid then
    if c.alive then
      if c.tag = counter then c
      else { c with alive := false }
    else c
  else c

/-- stream.rs:542-558: one step of the switch node.  On `arrive` the outer
subscriber increments the generation counter (`my_id = id.fetch_add(1) + 1`)
and installs a forwarding subscriber tagged `my_id` directly on the arriving
inner stream; on `fire` the inner stream's registry delivers through its
forwarding subscribers.  Returns the new state and the values delivered to
the switch output. -/
def SwitchState.step {T : Type} (st : SwitchState) : SwitchEvent T → SwitchState × List T
  | .arrive sid =>
    let myId := st.counter + 1
    ({ counter := myId, subs := st.subs ++ [⟨sid, myId, true⟩] }, [])
  | .fire sid v =>
    let q := fireSubs st.counter sid v st.subs
    ({ st with subs := q.1 }, q.2)

/-- Running a sequence of switch events from the freshly constructed switch
node, collecting the output trace. -/
def switchRun {T : Type} (es : List (SwitchEvent T)) : SwitchState × List T :=
  es.foldl (fun p e => let r := p.1.step e; (r.1, p.2 ++ r.2)) (⟨0, []⟩, [])

/-- The most recently received inner stream, if any. -/
def lastArrival {T : Type} (es : List (SwitchEvent T)) : Option Nat :=
  es.foldl (fun acc e => match e with | .arrive s => some s | .fire _ _ => acc) none

/-- One-event update of the most-recent-arrival tracker. -/
def lasStep {T : Type} (las : Option Nat) : SwitchEvent T → Option Nat
  | .arrive s => some s
  | .fire _ _ => las

/-- Invariant of the switch node relating its state to the most recently
received inner stream: every forwarding subscriber except the newest
carries a stale tag, and when some inner stream has arrived the newest
subscriber sits on it, carries the current counter value as its tag, and
is alive. -/
def SwitchInv (st : SwitchState) (las : Option Nat) : Prop :=
  (∀ c ∈ st.subs.dropLast, c.tag < st.counter)
  ∧ (las = Option.none → st.subs = [])
  ∧ (∀ s, las = some s →
      ∃ c, st.subs.getLast? = some c ∧ c.tag = st.counter ∧ c.sid = s ∧ c.alive = true)

/-! ## Streams, never and the merge scenario (stream.rs:155-292, 573-579) -/

/-- stream.rs:131-136 `Source`: no source, or a type-erased strong handle
to the parent stream(s). -/
inductive Source where
  | none
  | erased
deriving DecidableEq

/-- stream.rs:150-153 `Stream`: a shared handle to its callback registry
plus its ownership chain. -/
structure Stream (S T : Type) where
  cbs : Callbacks S T
  source : Source

/-- stream.rs:161-164 `Stream::never`: a fresh empty registry and no
source. -/
def Stream.never {S T : Type} : Stream S T :=
  { cbs := ⟨[]⟩, source := Source.none }

/-- stream.rs:573-579 `impl Default for Stream`: `Stream::never()`. -/
def Stream.defaultStream {S T : Type} : Stream S T :=
  Stream.never

/-- stream.rs:174-180 `Stream::observe` subscriber on the merged stream:
records every received value (the channel send succeeds, so the callback
stays alive).  The shared state is the observation trace. -/
def mergedObserver {T : Type} : FnCell (List T) T :=
  ⟨fun tr arg => (true, tr ++ [arg.val]), true⟩

/-- The shared state of the source stream's registry in the merge scenario:
the trace observed directly on `s`, and the merged stream's registry with
its own observation trace. -/
def SState (T : Type) : Type :=
  List T × (Callbacks (List T) T × List T)

/-- Observer installed directly on the source stream `s`. -/
def sObserver {T : Type} : FnCell (SState T) T :=
  ⟨fun st arg => (true, (st.1 ++ [arg.val], st.2)), true⟩

/-- stream.rs:261-270 `Stream::merge`: the forwarding subscriber pushed on a
parent registry, `move |arg| with_weak!(weak1, |cb| cb.call(arg))`.  The
merged registry is alive, so the upgrade succeeds and the subscriber
re-delivers the dispatch value into it and returns true. -/
def mergeFwd {T : Type} : FnCell (SState T) T :=
  ⟨fun st arg =>
    let r := st.2.1.call_dyn st.2.2 arg
    (true, (st.1, (r.1, r.2.1))), true⟩

/-- The registry of the source stream `s` after `s.observe(..)` and
`s.merge(&Stream::never())`: its own observer plus the merge forwarding
subscriber.  (`Stream::never()`'s registry receives the other forwarding
subscriber, but no sink ever sends into it.) -/
def mergeSourceReg {T : Type} : Callbacks (SState T) T :=
  ⟨[sObserver, mergeFwd]⟩

/-- The merged stream's registry: just its observer. -/
def mergedReg {T : Type} : Callbacks (List T) T :=
  ⟨[mergedObserver]⟩

/-- One send into the sink of `s` (stream.rs:75-80 `Sink::send`). -/
def mergeDrive {T : Type} (p : Callbacks (SState T) T × SState T) (v : T) :
    Callbacks (SState T) T × SState T :=
  let r := p.1.call p.2 v
  (r.1, r.2.1)

/-- Sending a sequence of values into the sink of `s`, with the merged
stream observed: returns the final registries and traces. -/
def mergeNeverRun {T : Type} (vs : List T) : Callbacks (SState T) T × SState T :=
  vs.foldl mergeDrive (mergeSourceReg, ([], (mergedReg, [])))

/-! ## filter subscriber and lazy cleanup (stream.rs:230-241) -/

/-- stream.rs:234-239 `Stream::filter`'s subscriber on the parent registry:
`move |arg| with_weak!(weak, |cb| if pred(&arg) { cb.call(arg) })`.
The state is the upgrade target: `none` once every strong handle to the
derived stream was dropped (the upgrade fails and the subscriber reports
dead), otherwise the derived registry and its observer trace. -/
def filterSub {T : Type} (pred : T → Bool) :
    FnCell (Option (Callbacks (List T) T × List T)) T :=
  ⟨fun st arg =>
    match st with
    | none => (false, none)
    | some (cb, cs) =>
      if pred arg.val then
        let r := cb.call_dyn cs arg
        (true, some (r.1, r.2.1))
      else (true, some (cb, cs)), true⟩

/-- The user closure of C5's concrete scenario: counts its own invocations
in the shared state and reports alive exactly on its first three
invocations (dead starting from the 4th). -/
def counterCell : FnCell Nat Nat :=
  ⟨fun k _ => (decide (k + 1 ≤ 3), k + 1), true⟩

/-- A concrete fold closure for witnesses: saturating subtraction that
panics (`none`) when the subtrahend is too large. -/
def subPanic (a v : Nat) : Option Nat :=
  if v ≤ a then some (a - v) else none

/-! ## Helper lemmas -/

/-- Iterating root-serial increments adds to the root counter and touches
nothing else. -/
theorem rootInc_iterate {T : Type} (k : Nat) (s : Storage T) :
    Storage.rootInc^[k] s = { s with root_ser := s.root_ser + k } := by
  induction k generalizing s with
  | zero => simp
  | succ k ih =>
    rw [Function.iterate_succ_apply, ih]
    obtain ⟨v, ser, root⟩ := s
    simp [Storage.rootInc]
    omega

/-- An empty storage slot stays empty under any further in-place fold
events: `Storage::take` finds the slot empty and panics before the user
closure can run, so nothing is ever put back. -/
theorem foldStep_poisoned {A T : Type} (f : A → T → Option A) (vs : List T) :
    ∀ st : Storage A, st.val = none → (vs.foldl (foldStep f) st).val = none := by
  induction vs with
  | nil => intro st h; simpa using h
  | cons v vs ih =>
    intro st h
    rw [List.foldl_cons]
    exact ih _ (by simp [foldStep, Storage.replace, Storage.take, h])

/-! ## C8: memoization staleness rule -/

/-- Claim C8: `must_update` holds exactly when the shared root serial is
strictly greater than the local stamp; `set_local` stores the value and
sets the local stamp to the current root serial, after which `must_update`
is false until the root counter is incremented again (that is, for exactly
the iterates with at least one further root increment); `set` stores the
value and increments the root counter. -/
theorem storage_memoization {T : Type} (s : Storage T) (v : T) (k : Nat) :
    (s.must_update = true ↔ s.serial < s.root_ser)
    ∧ (s.set_local v).val = some v
    ∧ (s.set_local v).serial = s.root_ser
    ∧ (s.set_local v).must_update = false
    ∧ (Storage.must_update (Storage.rootInc^[k] (s.set_local v)) = true ↔ 0 < k)
    ∧ (s.set v).val = some v
    ∧ (s.set v).root_ser = s.root_ser + 1 := by
  refine ⟨by simp [Storage.must_update], rfl, rfl, ?_, ?_, rfl, rfl⟩
  · simp [Storage.must_update, Storage.set_local]
  · rw [rootInc_iterate]
    simp [Storage.must_update, Storage.set_local]

/-! ## C9: the built-in SumType2 instances -/

/-- Claim C9: for the `Option<T>` instance (cases `T` and `()`) and the
`Result<T, E>` instance (cases `T` and `E`), exactly one of `is_type1` and
`is_type2` holds for every value, and `into_typeN` returns `Some` exactly
when `is_typeN` holds. -/
theorem sum_type2_invariants {T E : Type} :
    (∀ o : Option T,
      ((OptionSum2.is_type1 o = true ∧ OptionSum2.is_type2 o = false)
        ∨ (OptionSum2.is_type1 o = false ∧ OptionSum2.is_type2 o = true))
      ∧ (OptionSum2.into_type1 o).isSome = OptionSum2.is_type1 o
      ∧ (OptionSum2.into_type2 o).isSome = OptionSum2.is_type2 o)
    ∧ (∀ r : RResult T E,
      ((ResultSum2.is_type1 r = true ∧ ResultSum2.is_type2 r = false)
        ∨ (ResultSum2.is_type1 r = false ∧ ResultSum2.is_type2 r = true))
      ∧ (ResultSum2.into_type1 r).isSome = ResultSum2.is_type1 r
      ∧ (ResultSum2.into_type2 r).isSome = ResultSum2.is_type2 r) := by
  constructor
  · intro o
    cases o <;>
      simp [OptionSum2.is_type1, OptionSum2.is_type2, OptionSum2.into_type1,
        OptionSum2.into_type2, okOr, RResult.errVal]
  · intro r
    cases r <;>
      simp [ResultSum2.is_type1, ResultSum2.is_type2, ResultSum2.into_type1,
        ResultSum2.into_type2, RResult.okVal, RResult.errVal]

/-! ## C3: clone-avoiding fold and storage poisoning -/

/-- Claim C3: a fold event takes the accumulator out, applies `f` and puts
the result back; if `f` panics during that step the slot is left empty, and
then every subsequent sample of the resulting Shared signal fails loudly —
and stays failing after any further fold events, since no later fold step
can write a value back (take panics first). -/
theorem fold_take_put_poisoning {A T : Type} (f : A → T → Option A)
    (st : Storage A) (a a' : A) (v : T) (vs : List T) :
    (st.val = some a → f a v = some a' → (foldStep f st v).val = some a')
    ∧ (st.val = some a → f a v = none → (foldStep f st v).val = none)
    ∧ (st.val = none →
        (vs.foldl (foldStep f) st).val = none
        ∧ sampleShared (vs.foldl (foldStep f) st) = none) := by
  refine ⟨?_, ?_, ?_⟩
  · intro h hf
    simp [foldStep, Storage.replace, Storage.take, Storage.set, h, hf]
  · intro h hf
    simp [foldStep, Storage.replace, Storage.take, Storage.set, h, hf]
  · intro h
    have := foldStep_poisoned f vs st h
    exact ⟨this, by simpa [sampleShared, Storage.get] using this⟩

/-- Witness for C3 at concrete inputs: fold with `subPanic` on
`Storage.new 5`; a successful step writes back, a panicking step empties the
slot, and from an empty slot later fold events and sampling keep failing. -/
theorem fold_take_put_poisoning_witness :
    (foldStep subPanic (Storage.new 5) 3).val = some 2
    ∧ (foldStep subPanic (Storage.new 5) 7).val = none
    ∧ ((([2, 3] : List Nat).foldl (foldStep subPanic) (Storage.mk none 1 1)).val = none
        ∧ sampleShared
            (([2, 3] : List Nat).foldl (foldStep subPanic) (Storage.mk none 1 1)) = none) := by
  refine ⟨?_, ?_, ?_⟩
  · exact (fold_take_put_poisoning subPanic (Storage.new 5) 5 2 3 []).1 rfl (by decide)
  · exact (fold_take_put_poisoning subPanic (Storage.new 5) 5 2 7 []).2.1 rfl (by decide)
  · exact (fold_take_put_poisoning subPanic (Storage.mk none 1 1) 5 2 3 [2, 3]).2.2 rfl

/-! ## C4: fold_clone leaves the previous value intact on panic -/

/-- Claim C4: a fold_clone event clones the current accumulator, applies
`f` to the clone and writes the result back; if `f` panics the storage is
completely unchanged and subsequent sampling succeeds with the previous
value. -/
theorem fold_clone_preserves {A T : Type} (f : A → T → Option A)
    (st : Storage A) (a a' : A) (v : T) :
    (st.val = some a → f a v = some a' → (foldCloneStep f st v).val = some a')
    ∧ (st.val = some a → f a v = none →
        foldCloneStep f st v = st ∧ sampleShared (foldCloneStep f st v) = some a) := by
  constructor
  · intro h hf
    simp [foldCloneStep, Storage.replace_clone, Storage.get, Storage.set, h, hf]
  · intro h hf
    have hst : foldCloneStep f st v = st := by
      simp [foldCloneStep, Storage.replace_clone, Storage.get, h, hf]
    exact ⟨hst, by simp [hst, sampleShared, Storage.get, h]⟩

/-- Witness for C4 at concrete inputs: the same panicking subtraction; the
panicking event leaves `Storage.new 5` unchanged and sampling still yields
5. -/
theorem fold_clone_preserves_witness :
    (foldCloneStep subPanic (Storage.new 5) 3).val = some 2
    ∧ (foldCloneStep subPanic (Storage.new 5) 7 = Storage.new 5
        ∧ sampleShared (foldCloneStep subPanic (Storage.new 5) 7) = some 5) :=
  ⟨(fold_clone_preserves subPanic (Storage.new 5) 5 2 3).1 rfl (by decide),
    (fold_clone_preserves subPanic (Storage.new 5) 5 2 7).2 rfl (by decide)⟩

/-! ## C6: split routing and shared subscriber lifetime -/

/-- Claim C6: the single subscriber `split` installs on the parent routes a
first-case event (when the first derived stream is reachable) exactly once
to the first derived stream and never to the second, symmetrically for the
second case, and reports itself alive exactly when at least one of the two
derived streams is still reachable — dead only when both are dropped. -/
theorem split_routing_liveness {V A B : Type} (i : Sum2Impl V A B)
    (alive1 alive2 : Bool) (v : V) :
    ((splitSub i alive1 alive2 v).1 = (alive1 || alive2))
    ∧ (i.is_type1 v = true → alive1 = true →
        ∀ x, i.into_type1 v = some x → (splitSub i alive1 alive2 v).2 = (some x, none))
    ∧ (i.is_type1 v = false → alive2 = true →
        ∀ x, i.into_type2 v = some x → (splitSub i alive1 alive2 v).2 = (none, some x)) := by
  refine ⟨?_, ?_, ?_⟩
  · unfold splitSub
    cases h1 : i.is_type1 v <;> cases alive1 <;> cases alive2 <;> simp [h1]
  · intro h1 ha x hx
    simp [splitSub, h1, ha, hx]
  · intro h1 ha x hx
    simp [splitSub, h1, ha, hx]

/-- Witness for C6 at concrete inputs: the `Result<Nat, Nat>` instance with
an `Ok 4` event and both derived streams alive — it is routed to the first
stream only. -/
theorem split_routing_liveness_witness :
    ((splitSub
        ⟨ResultSum2.is_type1, ResultSum2.is_type2, ResultSum2.into_type1,
          ResultSum2.into_type2⟩ true true (RResult.ok (4 : Nat) (E := Nat))).1
      = (true || true))
    ∧ (splitSub
        ⟨ResultSum2.is_type1, ResultSum2.is_type2, ResultSum2.into_type1,
          ResultSum2.into_type2⟩ true true (RResult.ok (4 : Nat) (E := Nat))).2
      = (some 4, none) := by
  have h := split_routing_liveness
    (⟨ResultSum2.is_type1, ResultSum2.is_type2, ResultSum2.into_type1,
      ResultSum2.into_type2⟩ : Sum2Impl (RResult Nat Nat) Nat Nat) true true
    (RResult.ok 4)
  exact ⟨h.1, h.2.1 rfl rfl 4 rfl⟩

/-! ## C7: lazy eviction of a dropped derived stream's subscription -/

/-- Claim C7: after every strong handle to the derived (filter) stream is
dropped, the subscriber still sits on the parent registry (count 1 — drop
itself evicts nothing); during the next send it fails to upgrade its weak
handle, reports dead, and is removed, leaving the parent registry with 0
subscribers when the send completes. -/
theorem filter_lazy_eviction {T : Type} (pred : T → Bool) (v : T) :
    (Callbacks.mk [filterSub pred]).fs.length = 1
    ∧ ((Callbacks.mk [filterSub pred]).call none v).1.fs = []
    ∧ ((Callbacks.mk [filterSub pred]).call none v).2.1 = none := by
  exact ⟨rfl, rfl, rfl⟩

/-! ## C1: delivery order and borrowed/owned dispatch -/

/-- The delivery loop of `Callbacks::call`, on a registry whose entries are
all alive, invokes every user closure: positionally (= insertion order) the
first `n-1` with a borrowed dispatch value and the last with the owned
value. -/
theorem callLoop_trace {S T : Type} (v : T) :
    ∀ (fs : List (FnCell S T)), (∀ c ∈ fs, c.alive = true) → ∀ s : S, fs ≠ [] →
      (callLoop fs s v).2.2.2
        = List.replicate (fs.length - 1) (some (MaybeOwned.borrowed v))
            ++ [some (MaybeOwned.owned v)] := by
  intro fs
  induction fs with
  | nil => intro _ s h; exact absurd rfl h
  | cons c rest ih =>
    intro h s _
    cases rest with
    | nil =>
      simp [callLoop, FnCell.call, h c (by simp)]
    | cons c₂ rest' =>
      have htr := ih (fun x hx => h x (List.mem_cons_of_mem _ hx))
        ((FnCell.call c s (.borrowed v)).state) (by simp)
      simp only [FnCell.call, h c (by simp), if_true] at htr
      simp only [callLoop, FnCell.call, h c (by simp), if_true, List.length_cons]
      rw [htr]
      simp [List.replicate_succ]

/-- Claim C1: on a registry with `n ≥ 1` live subscribers, `call` invokes
the subscribers in insertion order, passing the first `n-1` a borrowed
dispatch value and the last the owned value (the ghost trace is positionally
aligned with the registry); on a registry with zero subscribers `call`
invokes nothing and returns normally with everything unchanged. -/
theorem callbacks_call_dispatch {S T : Type} (cbs : Callbacks S T) (s : S) (v : T) :
    ((∀ c ∈ cbs.fs, c.alive = true) → cbs.fs ≠ [] →
      (cbs.call s v).2.2
        = List.replicate (cbs.fs.length - 1) (some (MaybeOwned.borrowed v))
            ++ [some (MaybeOwned.owned v)])
    ∧ (cbs.fs = [] → cbs.call s v = (⟨[]⟩, s, [])) := by
  constructor
  · intro halive hne
    have := callLoop_trace v cbs.fs halive s hne
    simpa [Callbacks.call] using this
  · intro h
    obtain ⟨fs⟩ := cbs
    subst h
    rfl

/-- Witness for C1 at a concrete input: a two-subscriber registry; the first
subscriber is invoked with the borrowed value, the second with the owned
value; and the empty registry is a no-op. -/
theorem callbacks_call_dispatch_witness :
    ((Callbacks.mk
        [⟨fun s _ => (true, s), true⟩, ⟨fun s _ => (true, s), true⟩]
        : Callbacks Unit Nat).call () 5).2.2
      = List.replicate 1 (some (MaybeOwned.borrowed 5)) ++ [some (MaybeOwned.owned 5)]
    ∧ (Callbacks.mk [] : Callbacks Unit Nat).call () 5 = (⟨[]⟩, (), []) := by
  constructor
  · exact (callbacks_call_dispatch
      (Callbacks.mk [⟨fun s _ => (true, s), true⟩, ⟨fun s _ => (true, s), true⟩]) () 5).1
      (by intro c hc
          rcases List.mem_cons.mp hc with rfl | hc
          · rfl
          rcases List.mem_cons.mp hc with rfl | hc
          · rfl
          cases hc)
      (by simp)
  · exact (callbacks_call_dispatch (Callbacks.mk []) () 5).2 rfl

/-! ## C5: liveness cutoff (corrected) -/

/-- Counterexample to claim C5 as stated: a subscriber whose closure reports
dead starting from its 4th invocation, over a 10-send sequence, has its
closure invoked exactly 4 times, not 3 — the 4th invocation is the one that
returns dead. -/
theorem fncell_liveness_cutoff_counterexample :
    (Callbacks.sendAll (Callbacks.mk [counterCell]) 0 (List.replicate 10 7)).2 = 4
    ∧ ¬ (Callbacks.sendAll (Callbacks.mk [counterCell]) 0 (List.replicate 10 7)).2 = 3 := by
  decide

/-- Claim C5 (amended): a subscriber closure that has returned false is
never invoked again — `FnCell::call` records the death and afterwards
skips the user closure, leaving state untouched and reporting dead; for a
subscriber that reports dead starting from its 4th invocation, a 10-send
sequence invokes the user closure exactly 4 times: the first 3 sends
deliver (closure alive, registry still holds it), the 4th invocation
returns dead and the subscriber is evicted during that send, and sends
5-10 invoke it zero more times. -/
theorem fncell_liveness_cutoff {S T : Type} :
    (∀ (c : FnCell S T) (s : S) (a : MaybeOwned T),
        (c.call s a).alive = false → ((c.call s a).cell).alive = false)
    ∧ (∀ (c : FnCell S T) (s : S) (a : MaybeOwned T),
        c.alive = false →
          (c.call s a).invoked = none
          ∧ ((c.call s a).cell).alive = false
          ∧ (c.call s a).state = s)
    ∧ ((Callbacks.sendAll (Callbacks.mk [counterCell]) 0 (List.replicate 3 7)).2 = 3
        ∧ (Callbacks.sendAll (Callbacks.mk [counterCell]) 0 (List.replicate 3 7)).1.fs.length
            = 1)
    ∧ ((Callbacks.sendAll (Callbacks.mk [counterCell]) 0 (List.replicate 4 7)).2 = 4
        ∧ (Callbacks.sendAll (Callbacks.mk [counterCell]) 0 (List.replicate 4 7)).1.fs.length
            = 0)
    ∧ (Callbacks.sendAll (Callbacks.mk [counterCell]) 0 (List.replicate 10 7)).2 = 4 := by
  refine ⟨?_, ?_, by decide, by decide, by decide⟩
  · intro c s a h
    unfold FnCell.call at h ⊢
    by_cases hc : c.alive = true
    · simp only [hc, if_true] at h ⊢
      exact h
    · simp only [Bool.not_eq_true] at hc
      simp [hc]
  · intro c s a h
    simp [FnCell.call, h]

/-- Witness for C5's amended theorem at a concrete input: a cell that just
returned dead is marked dead, and a dead cell is skipped entirely. -/
theorem fncell_liveness_cutoff_witness :
    ((FnCell.call (⟨fun s _ => (false, s), true⟩ : FnCell Unit Nat) ()
        (MaybeOwned.owned 0)).cell).alive = false
    ∧ ((FnCell.call (⟨fun s _ => (true, s), false⟩ : FnCell Unit Nat) ()
          (MaybeOwned.owned 0)).invoked = none
        ∧ ((FnCell.call (⟨fun s _ => (true, s), false⟩ : FnCell Unit Nat) ()
            (MaybeOwned.owned 0)).cell).alive = false
        ∧ (FnCell.call (⟨fun s _ => (true, s), false⟩ : FnCell Unit Nat) ()
            (MaybeOwned.owned 0)).state = ()) :=
  ⟨(fncell_liveness_cutoff (S := Unit) (T := Nat)).1
      ⟨fun s _ => (false, s), true⟩ () (MaybeOwned.owned 0) rfl,
    (fncell_liveness_cutoff (S := Unit) (T := Nat)).2.1
      ⟨fun s _ => (true, s), false⟩ () (MaybeOwned.owned 0) rfl⟩

/-! ## C10: never is an identity for merge -/

/-- One send into the source stream of the merge scenario: its observer
records the value (borrowed), the merge forwarding subscriber re-delivers
the owned value into the merged registry, whose observer records it too;
no subscriber dies and both registries are unchanged. -/
theorem mergeNever_step {T : Type} (s m : List T) (v : T) :
    mergeDrive ((mergeSourceReg : Callbacks (SState T) T), (s, (mergedReg, m))) v
      = (mergeSourceReg, (s ++ [v], (mergedReg, m ++ [v]))) := by
  rfl

/-- Running any value sequence through the merge scenario appends it to both
observation traces and leaves the registries unchanged. -/
theorem mergeNeverRun_eq {T : Type} (vs : List T) :
    ∀ s m : List T,
      vs.foldl mergeDrive
          ((mergeSourceReg : Callbacks (SState T) T), (s, (mergedReg, m)))
        = (mergeSourceReg, (s ++ vs, (mergedReg, m ++ vs))) := by
  induction vs with
  | nil => intro s m; simp
  | cons v vs ih =>
    intro s m
    rw [List.foldl_cons, mergeNever_step, ih (s ++ [v]) (m ++ [v])]
    simp

/-- Claim C10: `Stream::never()` (also `Stream::default()`) owns a fresh
empty registry and has no source; merging it with a stream `s` changes
nothing observable: for every sequence of values sent into `s`'s sink, the
events observed on `s.merge(&Stream::never())` are exactly the events
observed on `s` itself, in the same order.  (The forwarding subscriber that
`merge` pushes onto `never`'s registry is never fired, since no sink ever
sends into that registry; the subscriber installed on `s` is the same
closure whether `never` is the left or the right operand.) -/
theorem never_merge_identity {S T : Type} (vs : List T) :
    (Stream.never (S := S) (T := T)).cbs.fs = []
    ∧ (Stream.never (S := S) (T := T)).source = Source.none
    ∧ Stream.defaultStream (S := S) (T := T) = Stream.never
    ∧ (mergeNeverRun vs).2.2.2 = (mergeNeverRun vs).2.1
    ∧ (mergeNeverRun vs).2.1 = vs := by
  refine ⟨rfl, rfl, rfl, ?_, ?_⟩
  · unfold mergeNeverRun
    rw [mergeNeverRun_eq vs [] []]
  · unfold mergeNeverRun
    rw [mergeNeverRun_eq vs [] []]
    simp

/-! ## C2: switch recency -/

/-- Unfolding equation of `fireSubs` on a nonempty registry. -/
theorem fireSubs_cons (co sid : Nat) {T : Type} (v : T) (c : SwitchSub)
    (rest : List SwitchSub) :
    fireSubs co sid v (c :: rest)
      = if c.sid = sid then
          if c.alive then
            if c.tag = co then
              (c :: (fireSubs co sid v rest).1, v :: (fireSubs co sid v rest).2)
            else ({ c with alive := false } :: (fireSubs co sid v rest).1,
                (fireSubs co sid v rest).2)
          else (c :: (fireSubs co sid v rest).1, (fireSubs co sid v rest).2)
        else (c :: (fireSubs co sid v rest).1, (fireSubs co sid v rest).2) := rfl

/-- A fire leaves each forwarding subscriber as `fireCell` describes. -/
theorem fireSubs_fst_map (co sid : Nat) {T : Type} (v : T) (l : List SwitchSub) :
    (fireSubs co sid v l).1 = l.map (fireCell co sid) := by
  induction l with
  | nil => rfl
  | cons c rest ih =>
    rw [fireSubs_cons, List.map_cons]
    split_ifs <;> simp_all [fireCell]

/-- `fireSubs` distributes over list append. -/
theorem fireSubs_append (co sid : Nat) {T : Type} (v : T) (l₁ l₂ : List SwitchSub) :
    fireSubs co sid v (l₁ ++ l₂)
      = ((fireSubs co sid v l₁).1 ++ (fireSubs co sid v l₂).1,
          (fireSubs co sid v l₁).2 ++ (fireSubs co sid v l₂).2) := by
  induction l₁ with
  | nil => simp [fireSubs]
  | cons c rest ih =>
    rw [List.cons_append, fireSubs_cons, fireSubs_cons]
    split_ifs <;> simp [ih]

/-- Subscribers whose tag is not the current counter deliver nothing. -/
theorem fireSubs_quiet (co sid : Nat) {T : Type} (v : T) (l : List SwitchSub) :
    (∀ c ∈ l, c.tag ≠ co) → (fireSubs co sid v l).2 = [] := by
  induction l with
  | nil => intro _; rfl
  | cons c rest ih =>
    intro h
    have hc : c.tag ≠ co := h c (by simp)
    have hr := ih (fun x hx => h x (List.mem_cons_of_mem _ hx))
    rw [fireSubs_cons]
    split_ifs <;> simp_all

/-- `fireCell` never changes a subscriber's tag. -/
theorem fireCell_tag (co sid : Nat) (c : SwitchSub) : (fireCell co sid c).tag = c.tag := by
  unfold fireCell
  split_ifs <;> rfl

/-- `fireCell` never changes which stream a subscriber sits on. -/
theorem fireCell_sid (co sid : Nat) (c : SwitchSub) : (fireCell co sid c).sid = c.sid := by
  unfold fireCell
  split_ifs <;> rfl

/-- An alive subscriber carrying the current counter as its tag is left
untouched by a fire. -/
theorem fireCell_fix (co sid : Nat) (c : SwitchSub) (ha : c.alive = true)
    (ht : c.tag = co) : fireCell co sid c = c := by
  unfold fireCell
  split_ifs <;> simp_all

/-- Every list is empty or some list plus a final element. -/
theorem eq_nil_or_append_single {α : Type} (l : List α) :
    l = [] ∨ ∃ l₀ a, l = l₀ ++ [a] := by
  rcases List.eq_nil_or_concat l with h | ⟨l₀, a, h⟩
  · exact Or.inl h
  · exact Or.inr ⟨l₀, a, by simpa [List.concat_eq_append] using h⟩

/-- One switch step preserves the switch invariant. -/
theorem switchInv_step {T : Type} (st : SwitchState) (las : Option Nat)
    (e : SwitchEvent T) (hinv : SwitchInv st las) :
    SwitchInv (st.step e).1 (lasStep las e) := by
  obtain ⟨hstale, hnone, hlast⟩ := hinv
  cases e with
  | arrive sid =>
    refine ⟨?_, by simp [lasStep], ?_⟩
    · intro c hc
      simp only [SwitchState.step, List.dropLast_concat] at hc
      simp only [SwitchState.step]
      rcases eq_nil_or_append_single st.subs with h0 | ⟨l₀, a, h0⟩
      · rw [h0] at hc; cases hc
      · have hdrop : st.subs.dropLast = l₀ := by rw [h0, List.dropLast_concat]
        rw [h0] at hc
        rcases List.mem_append.mp hc with hc | hc
        · exact Nat.lt_succ_of_lt (hstale c (by rw [hdrop]; exact hc))
        · have hca : c = a := by simpa using hc
          cases hlasv : las with
          | none =>
            rw [hnone hlasv] at h0
            exact absurd h0 (by simp)
          | some s0 =>
            obtain ⟨c₀, hc₀, htag, _, _⟩ := hlast s0 hlasv
            rw [h0, List.getLast?_concat] at hc₀
            have ha : a = c₀ := by injection hc₀
            rw [hca, ha, htag]
            exact Nat.lt_succ_self _
    · intro s hs
      have hsid : sid = s := by simpa [lasStep] using hs
      refine ⟨⟨sid, st.counter + 1, true⟩, ?_, ?_, ?_, ?_⟩
      · simp [SwitchState.step, List.getLast?_concat]
      · rfl
      · exact hsid
      · rfl
  | fire sid v =>
    have hsubs : (st.step (SwitchEvent.fire sid v)).1.subs
        = st.subs.map (fireCell st.counter sid) := by
      simp only [SwitchState.step, fireSubs_fst_map]
    have hco : (st.step (SwitchEvent.fire sid v)).1.counter = st.counter := rfl
    refine ⟨?_, ?_, ?_⟩
    · intro c hc
      rw [hsubs] at hc
      rw [hco]
      rcases eq_nil_or_append_single st.subs with h0 | ⟨l₀, a, h0⟩
      · rw [h0] at hc; simp at hc
      · rw [h0, List.map_append, List.map_singleton, List.dropLast_concat] at hc
        obtain ⟨c₀, hc₀, rfl⟩ := List.mem_map.mp hc
        rw [fireCell_tag]
        exact hstale c₀ (by rw [h0, List.dropLast_concat]; exact hc₀)
    · intro hlas
      rw [hsubs, hnone (by simpa [lasStep] using hlas)]
      rfl
    · intro s hs
      have hs' : las = some s := by simpa [lasStep] using hs
      obtain ⟨c₀, hc₀, htag, hsid, halive⟩ := hlast s hs'
      rcases eq_nil_or_append_single st.subs with h0 | ⟨l₀, a, h0⟩
      · rw [h0] at hc₀; simp at hc₀
      · have ha : a = c₀ := by rw [h0, List.getLast?_concat] at hc₀; injection hc₀
        refine ⟨c₀, ?_, by rw [hco]; exact htag, hsid, halive⟩
        rw [hsubs, h0, List.map_append, List.map_singleton, List.getLast?_concat, ha,
          fireCell_fix st.counter sid c₀ halive htag]

/-- Running any event sequence from the fresh switch node establishes the
switch invariant. -/
theorem switchInv_run {T : Type} (es : List (SwitchEvent T)) :
    SwitchInv (switchRun es).1 (lastArrival es) := by
  induction es using List.reverseRecOn with
  | nil =>
    refine ⟨?_, ?_, ?_⟩
    · intro c hc
      simp [switchRun] at hc
    · intro _
      rfl
    · intro s hs
      simp [lastArrival] at hs
  | append_singleton es e ih =>
    have hrun : (switchRun (es ++ [e])).1 = ((switchRun es).1.step e).1 := by
      simp [switchRun, List.foldl_append]
    have hlas : lastArrival (es ++ [e]) = lasStep (lastArrival es) e := by
      cases e <;> simp [lastArrival, lasStep, List.foldl_append]
    rw [hrun, hlas]
    exact switchInv_step _ _ _ ih

/-- The values a fire delivers to the switch output, given the invariant:
the fired value iff the fired stream is the most recently received one. -/
theorem switch_fire_trace {T : Type} (st : SwitchState) (las : Option Nat)
    (hinv : SwitchInv st las) (s : Nat) (v : T) :
    (st.step (SwitchEvent.fire s v)).2 = if las = some s then [v] else [] := by
  obtain ⟨hstale, hnone, hlast⟩ := hinv
  cases hlas : las with
  | none =>
    simp only [SwitchState.step]
    rw [hnone hlas]
    simp [fireSubs]
  | some s0 =>
    obtain ⟨c₀, hc₀, htag, hsid, halive⟩ := hlast s0 hlas
    rcases eq_nil_or_append_single st.subs with h0 | ⟨l₀, a, h0⟩
    · rw [h0] at hc₀; simp at hc₀
    · have ha : a = c₀ := by rw [h0, List.getLast?_concat] at hc₀; injection hc₀
      subst ha
      have hq : (fireSubs st.counter s v l₀).2 = [] := by
        apply fireSubs_quiet
        intro c hc
        have : c ∈ st.subs.dropLast := by rw [h0, List.dropLast_concat]; exact hc
        exact Nat.ne_of_lt (hstale c this)
      simp only [SwitchState.step, h0, fireSubs_append, hq, List.nil_append]
      by_cases hss : s0 = s
      · subst hss
        rw [fireSubs_cons]
        simp [fireSubs, hsid, halive, htag]
      · have hns : a.sid ≠ s := by rw [hsid]; exact hss
        rw [fireSubs_cons]
        simp [fireSubs, hns, hss]

/-- Claim C2: after any sequence of inner-stream arrivals and inner-stream
fires, a fire of value `v` on inner stream `s` is delivered to the switch
output exactly when `s` is the most recently received inner stream (and
then exactly once); an event fired on any earlier-received inner stream is
never delivered; and after such a delivery attempt every forwarding
subscriber sitting on the fired stream with a stale generation tag has
self-deactivated (reported dead). -/
theorem switch_recency {T : Type} (es : List (SwitchEvent T)) (s : Nat) (v : T) :
    ((switchRun (es ++ [SwitchEvent.fire s v])).2
        = (switchRun es).2 ++ (if lastArrival es = some s then [v] else []))
    ∧ (∀ c ∈ (switchRun (es ++ [SwitchEvent.fire s v])).1.subs,
        c.sid = s → c.tag ≠ (switchRun (es ++ [SwitchEvent.fire s v])).1.counter →
          c.alive = false) := by
  have hrun : switchRun (es ++ [SwitchEvent.fire s v])
      = (((switchRun es).1.step (SwitchEvent.fire s v)).1,
          (switchRun es).2 ++ ((switchRun es).1.step (SwitchEvent.fire s v)).2) := by
    simp [switchRun, List.foldl_append]
  constructor
  · rw [hrun]
    rw [switch_fire_trace (switchRun es).1 (lastArrival es) (switchInv_run es) s v]
  · intro c hc hcs hct
    rw [hrun] at hc hct
    simp only [SwitchState.step, fireSubs_fst_map] at hc hct
    obtain ⟨c₀, _, rfl⟩ := List.mem_map.mp hc
    rw [fireCell_tag] at hct
    rw [fireCell_sid] at hcs
    by_cases ha : c₀.alive = true
    · simp [fireCell, hcs, hct, ha]
    · simp only [Bool.not_eq_true] at ha
      simp [fireCell, hcs, ha]

/-- Witness for C2 at the spec's concrete scenario: after inner stream 0
arrives, fires 1 (delivered), and inner stream 1 arrives, a fire of 2 on
the older stream 0 delivers nothing, and stream 0's forwarding subscriber
(tag 1, counter now 2) has self-deactivated. -/
theorem switch_recency_witness :
    ((switchRun ([SwitchEvent.arrive 0, SwitchEvent.fire 0 (1 : Nat), SwitchEvent.arrive 1]
          ++ [SwitchEvent.fire 0 2])).2
        = (switchRun [SwitchEvent.arrive 0, SwitchEvent.fire 0 (1 : Nat),
            SwitchEvent.arrive 1]).2 ++ [])
    ∧ SwitchSub.alive ⟨0, 1, false⟩ = false := by
  have h := switch_recency
    [SwitchEvent.arrive 0, SwitchEvent.fire 0 (1 : Nat), SwitchEvent.arrive 1] 0 2
  constructor
  · have h1 := h.1
    have : lastArrival [SwitchEvent.arrive 0, SwitchEvent.fire 0 (1 : Nat),
        SwitchEvent.arrive 1] = some 1 := by decide
    rw [h1, this]
    decide
  · exact h.2 ⟨0, 1, false⟩ (by decide) rfl (by decide)

end Frappe
